import Mathlib

/-!
Verification development for the vibestar repository: a shallow embedding of the
RAG document pipeline (text chunker, embedding client, document upload/delete
handlers, chat orchestrator, project delete handler) together with theorems
about the properties stated in the specification.

Texts are modelled as `List Char` (one element per string unit, matching the
index arithmetic of `text.slice`/`text.length` in the source).  External
services (database, embedding model, vector index, chat model) are modelled by
explicit parameters describing their responses, and handler side effects are
modelled as explicit event traces or state transformations.
-/

namespace Vibestar

/-- `text.slice(a, b)` of the source for `0 ≤ a`: the units of `text` from
index `a` (inclusive) to index `b` (exclusive). -/
def strSlice (text : List Char) (a b : Nat) : List Char :=
  (text.drop a).take (b - a)

/-! ### Text chunker (`chunkText` in `src/app/lib/ai.server.ts`)

The source's `while` loop is modelled with explicit fuel, since for
`overlap ≥ chunkSize` the loop does not terminate.  `none` models divergence.
The loop body: while `start < text.length`, compute
`end = min(start + chunkSize, text.length)`, push `text.slice(start, end)`,
advance `start` by `chunkSize - overlap`, and break once `start ≥ text.length`.
-/

def CHUNK_SIZE : Nat := 500

def CHUNK_OVERLAP : Nat := 50

def chunkTextLoop (text : List Char) (chunkSize overlap : Nat) :
    Nat → Nat → Option (List (List Char))
  | _, 0 => none
  | start, fuel + 1 =>
    if start < text.length then
      let endIdx := min (start + chunkSize) text.length
      let chunk := strSlice text start endIdx
      let nextStart := start + (chunkSize - overlap)
      if text.length ≤ nextStart then
        some [chunk]
      else
        (chunkTextLoop text chunkSize overlap nextStart fuel).map (chunk :: ·)
    else
      some []

/-- `chunkText(text, chunkSize, overlap)`: run the loop from `start = 0`.
Fuel `text.length + 1` covers every terminating run (the start index moves by
at least one per iteration whenever `overlap < chunkSize`). -/
def chunkText (text : List Char) (chunkSize : Nat := CHUNK_SIZE)
    (overlap : Nat := CHUNK_OVERLAP) : Option (List (List Char)) :=
  chunkTextLoop text chunkSize overlap 0 (text.length + 1)

/-! ### Embedding client (`generateEmbeddings` in `src/app/lib/ai.server.ts`,
Responses-API variant) -/

def VECTORIZE_DIMENSIONS : Nat := 1536

/-- `generateEmbeddings` after the remote model returned `{ data }`: truncate
each embedding to its leading `VECTORIZE_DIMENSIONS` entries
(`emb.slice(0, VECTORIZE_DIMENSIONS)`).  The numeric element type is kept
abstract: the claims constrain only counts, order and lengths. -/
def generateEmbeddings {α : Type} (data : List (List α)) : List (List α) :=
  data.map (fun emb => emb.take VECTORIZE_DIMENSIONS)

/-! ### Document pipeline (`processDocument` in `src/app/lib/ai.server.ts` and
the chunk-row construction of the upload action in
`src/app/routes/api.documents.ts`) -/

/-- A vector upserted by `processDocument`: its id together with the metadata
`{documentId, chunkIndex, content}`.  The numeric values come from the
embedding call and are not constrained by the claims, so they are omitted. -/
structure VectorRecord where
  id : String
  documentId : String
  chunkIndex : Nat
  content : List Char
deriving DecidableEq

/-- `processDocument`: chunk the content with the default parameters and build,
for chunk `i`, the chunk id `documentId + "-chunk-" + i`, the vector id
`"vec-" + chunkId`, and one vector record carrying the chunk text as its
`content` metadata.  Returns `(chunkIds, vectorIds, vectors)`; `none` models
the divergence of `chunkText` outside its terminating domain. -/
def processDocument (documentId : String) (content : List Char) :
    Option (List String × List String × List VectorRecord) :=
  (chunkText content).map (fun chunks =>
    (chunks.enum.map (fun ic => documentId ++ "-chunk-" ++ toString ic.1),
     chunks.enum.map (fun ic => "vec-" ++ documentId ++ "-chunk-" ++ toString ic.1),
     chunks.enum.map (fun ic =>
       { id := "vec-" ++ documentId ++ "-chunk-" ++ toString ic.1,
         documentId := documentId,
         chunkIndex := ic.1,
         content := ic.2 })))

/-- The `content` column of the DocumentChunk rows persisted by the upload
action (`api.documents.ts`): for the `index`-th chunk id returned by
`processDocument` the row stores
`content.slice(index * 450, Math.min((index + 1) * 500, content.length))`
(the literals `450` and `500` are hardcoded in the route). -/
def savedChunkContents (documentId : String) (content : List Char) :
    Option (List (List Char)) :=
  (processDocument documentId content).map (fun r =>
    r.1.enum.map (fun ic =>
      strSlice content (ic.1 * 450) (min ((ic.1 + 1) * 500) content.length)))

/-! Upload action lifecycle (`action` in `src/app/routes/api.documents.ts`).
The fallible steps of the background task are parameterized by their outcomes;
database status updates are modelled as always succeeding. -/

/-- Outcomes of the upload background task's fallible steps: whether the
local-dev dummy-chunk insert throws, the result of `processDocument`'s remote
calls (embedding and vector upsert), and whether the chunk-row insert throws. -/
structure UploadCalls where
  localInsertThrows : Bool
  processResult : Except String (List String × List String)
  chunkInsertThrows : Bool

/-- The sequence of `status` values the background task writes to the document
row, in order.  The task body is a `try/catch`: on local dev it inserts a
dummy chunk and sets `ready`; otherwise it runs `processDocument`, inserts the
chunk rows and sets `ready`; any exception is caught (swallowed, not
re-raised) and the status is set to `failed`. -/
def backgroundStatusWrites (isLocalDev : Bool) (calls : UploadCalls) :
    List String :=
  if isLocalDev then
    if calls.localInsertThrows then ["failed"] else ["ready"]
  else
    match calls.processResult with
    | .error _ => ["failed"]
    | .ok _ => if calls.chunkInsertThrows then ["failed"] else ["ready"]

/-- The document's status history over an upload: the row is inserted with
status `processing`, the HTTP response is produced (the background work is
deferred through `waitUntil` and not awaited), and then the background task's
status writes apply in order. -/
def documentStatusHistory (isLocalDev : Bool) (calls : UploadCalls) :
    List String :=
  "processing" :: backgroundStatusWrites isLocalDev calls

/-! Document delete flow (`handleDelete` in `src/app/routes/api.documents.ts`). -/

inductive DeleteEvent
  | vectorDelete (ids : List String)
  | dbDeleteDocument
deriving DecidableEq

/-- `deleteDocumentVectors`: an empty id list is a no-op (early return, no
remote call); otherwise one batched `deleteByIds` call is issued, which may
throw after being issued.  Returns the issued events and the call outcome. -/
def deleteDocumentVectorsRun (vectorIds : List String) (throws : Bool) :
    List DeleteEvent × Except String Unit :=
  if vectorIds = [] then ([], .ok ())
  else ([.vectorDelete vectorIds],
    if throws then .error "vector delete failed" else .ok ())

/-- `handleDelete` after authentication: look up the document (404 when
missing, 403 when owned by another user), collect the non-null `vectorId`s of
its chunk rows, attempt the batched vector delete inside a `try/catch` whose
handler only logs and continues, then delete the document row (cascading to
the chunk rows) and answer success.  Returns the event trace and the HTTP
status (200 encodes the `{success: true}` response). -/
def handleDelete (docExists ownerMatches : Bool)
    (chunkVectorIds : List (Option String)) (vectorDeleteThrows : Bool) :
    List DeleteEvent × Nat :=
  if !docExists then ([], 404)
  else if !ownerMatches then ([], 403)
  else
    let vectorIds := chunkVectorIds.filterMap id
    let vecEvents :=
      if 0 < vectorIds.length then
        (deleteDocumentVectorsRun vectorIds vectorDeleteThrows).1
      else []
    (vecEvents ++ [.dbDeleteDocument], 200)

/-! Chat orchestrator (`action` in `src/app/routes/api.chat.ts`; the Hono
variant `chat.post` in `src/server/api/chat.ts` performs the same sequence). -/

inductive ChatEvent
  | insertConversation (title : List Char)
  | insertMessage (role : String) (content : List Char)
  | ragQuery
  | modelCall
  | respond (status : Nat)
deriving DecidableEq

def ChatEvent.isInsertConversation : ChatEvent → Bool
  | .insertConversation _ => true
  | _ => false

def ChatEvent.isUserInsert : ChatEvent → Bool
  | .insertMessage role _ => role == "user"
  | _ => false

/-- The authenticated chat POST flow as the ordered trace of its side effects.
An empty message string is falsy in `if (!body.message)` and is rejected with
status 400.  With no conversation id a Conversation row is inserted with title
`message.slice(0, 50)`; the last ten messages are then loaded (a read, not an
event); the user Message row is inserted; if RAG was requested the retrieval
query runs; then the chat model is called and the streamed response is
produced.  (The assistant-message insert happens on stream completion, after
the response, and is not part of this claim.) -/
def chatPostTrace (msg : List Char) (conversationId : Option String)
    (useRag : Bool) : List ChatEvent :=
  if msg = [] then [.respond 400]
  else
    (match conversationId with
     | none => [.insertConversation (msg.take 50)]
     | some _ => []) ++
    [.insertMessage "user" msg] ++
    (if useRag then [.ragQuery] else []) ++
    [.modelCall, .respond 200]

/-! Responses-API chat completion (`chatCompletionStream` and `chatCompletion`
in `src/app/lib/ai.server.ts`, Responses-API variant).  Both functions call the
model with `stream: false` and extract the text with identical loops; the
extraction is transliterated once per source function. -/

/-- One element of `output[i].content` of a Responses-API result. -/
structure ResponseContentItem where
  text : List Char
  type : String
deriving DecidableEq

/-- One element of `output` of a Responses-API result.  `content = none`
models an absent (`undefined`) field. -/
structure ResponseOutputItem where
  type : String
  content : Option (List ResponseContentItem)
  role : Option String
deriving DecidableEq

/-- A Responses-API result; `output = none` models an absent field
(`if (response.output)` skips the extraction entirely). -/
structure ResponsesApiOutput where
  id : String
  output : Option (List ResponseOutputItem)
deriving DecidableEq

/-- Text extraction of `chatCompletionStream`: iterate over `output`, and for
each item of type `"message"` with a present `content` array, append the
`text` of each content element whose `type` is `"output_text"` and whose text
is truthy (non-empty). -/
def extractStreamText (response : ResponsesApiOutput) : List Char :=
  match response.output with
  | none => []
  | some items =>
    items.foldl (fun acc item =>
      if item.type = "message" then
        match item.content with
        | some cs =>
          cs.foldl (fun acc2 c =>
            if c.type = "output_text" ∧ c.text ≠ [] then acc2 ++ c.text
            else acc2) acc
        | none => acc
      else acc) []

/-- Text extraction of `chatCompletion` (duplicated verbatim in the source). -/
def extractCompletionText (response : ResponsesApiOutput) : List Char :=
  match response.output with
  | none => []
  | some items =>
    items.foldl (fun acc item =>
      if item.type = "message" then
        match item.content with
        | some cs =>
          cs.foldl (fun acc2 c =>
            if c.type = "output_text" ∧ c.text ≠ [] then acc2 ++ c.text
            else acc2) acc
        | none => acc
      else acc) []

/-- The chunks enqueued by the `ReadableStream` that `chatCompletionStream`
returns: its `start` callback enqueues the encoded response text once and then
closes the stream.  The `TextEncoder`/`TextDecoder` UTF-8 round trip at the
platform boundary is modelled as the identity, so chunks carry text. -/
def chatCompletionStreamChunks (response : ResponsesApiOutput) :
    List (List Char) :=
  [extractStreamText response]

/-- The string returned by `chatCompletion`. -/
def chatCompletionText (response : ResponsesApiOutput) : List Char :=
  extractCompletionText response

/-- Spec-side description for C8: the `output_text` fragments of a response in
order — the `text` fields of content elements of type `"output_text"` inside
output items of type `"message"`. -/
def outputTextFragments (response : ResponsesApiOutput) :
    List (List Char) :=
  ((response.output.getD []).map (fun item =>
    if item.type = "message" then
      (item.content.getD []).filterMap (fun c =>
        if c.type = "output_text" then some c.text else none)
    else [])).flatten

/-! Project delete (`projects.delete` in the Hono projects router,
`src/unnamed/part_009`).  Project and document tables are modelled as row
lists; timestamps are not modelled. -/

structure ProjectRow where
  id : String
  userId : String
  name : String
  description : Option String
  isDefault : Bool
deriving DecidableEq

structure DocumentRow where
  id : String
  userId : String
  projectId : Option String
deriving DecidableEq

structure ProjectsDb where
  projects : List ProjectRow
  documents : List DocumentRow
deriving DecidableEq

/-- `select * from project where id = pid and userId = uid limit 1`. -/
def firstUserProject (db : ProjectsDb) (userId pid : String) :
    Option ProjectRow :=
  (db.projects.filter (fun p => p.id == pid && p.userId == userId)).head?

/-- `select * from project where userId = uid and isDefault limit 1`. -/
def firstDefaultProject (db : ProjectsDb) (userId : String) :
    Option ProjectRow :=
  (db.projects.filter (fun p => p.userId == userId && p.isDefault)).head?

/-- DELETE `/api/projects?id=...` for an authenticated user: a missing id is
rejected (400), an unknown or foreign project is rejected (404), and the
default project is rejected (400); otherwise the user's default project is
looked up and, when absent, created with the fresh id `newId` (name
`"Uncategorized"`), every document row whose `projectId` equals the deleted
project's id is reassigned to the default project, the project row is
deleted, and the handler answers success (200). -/
def projectsDelete (db : ProjectsDb) (userId : String)
    (projectId : Option String) (newId : String) : ProjectsDb × Nat :=
  match projectId with
  | none => (db, 400)
  | some pid =>
    match firstUserProject db userId pid with
    | none => (db, 404)
    | some p =>
      if p.isDefault then (db, 400)
      else
        let found : ProjectsDb × String :=
          match firstDefaultProject db userId with
          | some d => (db, d.id)
          | none =>
            ({ db with projects := db.projects ++
                [{ id := newId, userId := userId, name := "Uncategorized",
                   description :=
                     some "Default project for documents without a project",
                   isDefault := true }] }, newId)
        let db1 : ProjectsDb := found.1
        let defaultId : String := found.2
        let db2 : ProjectsDb :=
          { db1 with documents := db1.documents.map (fun doc =>
            if doc.projectId = some pid then
              { doc with projectId := some defaultId }
            else doc) }
        ({ db2 with projects := db2.projects.filter (fun q => !(q.id == pid)) },
          200)

end Vibestar

namespace Vibestar

/-! #### Chunker lemmas -/

theorem chunkTextLoop_isSome (text : List Char) (chunkSize overlap : Nat)
    (h : overlap < chunkSize) :
    ∀ fuel start, 0 < fuel → text.length < start + fuel →
      (chunkTextLoop text chunkSize overlap start fuel).isSome := by
  intro fuel
  induction fuel with
  | zero =>
    intro start hf hlt
    omega
  | succ f ih =>
    intro start _ hlt
    rw [chunkTextLoop]
    by_cases hs : start < text.length
    · simp only [hs, if_true]
      by_cases hn : text.length ≤ start + (chunkSize - overlap)
      · simp [hn]
      · simp only [hn, if_false]
        have := ih (start + (chunkSize - overlap)) (by omega) (by omega)
        rcases Option.isSome_iff_exists.mp this with ⟨l, hl⟩
        simp [hl]
    · simp [hs]

theorem chunkTextLoop_get (text : List Char) (chunkSize overlap : Nat) :
    ∀ fuel start l, chunkTextLoop text chunkSize overlap start fuel = some l →
      ∀ i (hi : i < l.length),
        l.get ⟨i, hi⟩ =
          strSlice text (start + i * (chunkSize - overlap))
            (min (start + i * (chunkSize - overlap) + chunkSize) text.length) := by
  intro fuel
  induction fuel with
  | zero =>
    intro start l hl
    simp [chunkTextLoop] at hl
  | succ f ih =>
    intro start l hl i hi
    rw [chunkTextLoop] at hl
    by_cases hs : start < text.length
    · simp only [hs, if_true] at hl
      by_cases hn : text.length ≤ start + (chunkSize - overlap)
      · simp only [hn, if_true, Option.some.injEq] at hl
        subst hl
        match i, hi with
        | 0, _ =>
          simp [Nat.add_comm]
      · simp only [hn, if_false, Option.map_eq_some'] at hl
        rcases hl with ⟨rest, hrest, hl⟩
        subst hl
        match i, hi with
        | 0, _ =>
          simp [Nat.add_comm]
        | i + 1, hi =>
          have := ih (start + (chunkSize - overlap)) rest hrest i
            (by simpa using Nat.lt_of_succ_lt_succ hi)
          simp only [List.get_cons_succ]
          rw [this]
          ring_nf
    · simp only [hs, if_false, Option.some.injEq] at hl
      subst hl
      simp at hi

theorem chunkTextLoop_exit (text : List Char) (chunkSize overlap : Nat) :
    ∀ fuel start l, chunkTextLoop text chunkSize overlap start fuel = some l →
      start < text.length →
        text.length ≤ start + l.length * (chunkSize - overlap) := by
  intro fuel
  induction fuel with
  | zero =>
    intro start l hl
    simp [chunkTextLoop] at hl
  | succ f ih =>
    intro start l hl hs
    rw [chunkTextLoop] at hl
    simp only [hs, if_true] at hl
    by_cases hn : text.length ≤ start + (chunkSize - overlap)
    · simp only [hn, if_true, Option.some.injEq] at hl
      subst hl
      simpa using hn
    · simp only [hn, if_false, Option.map_eq_some'] at hl
      rcases hl with ⟨rest, hrest, hl⟩
      subst hl
      have := ih (start + (chunkSize - overlap)) rest hrest (by omega)
      simp only [List.length_cons]
      calc text.length ≤ start + (chunkSize - overlap) +
            rest.length * (chunkSize - overlap) := this
        _ = start + (rest.length + 1) * (chunkSize - overlap) := by ring

theorem strSlice_length_le (text : List Char) (a b : Nat) :
    (strSlice text a b).length ≤ b - a := by
  simp only [strSlice, List.length_take, List.length_drop]
  omega

/-- C9: for every text and every chunk size `C` and overlap `O` with `O < C`,
the `chunkText` loop terminates (the start index strictly increases by the
stride `C − O ≥ 1` each iteration, so fuel `N + 1` always suffices and the
model returns `some`). -/
theorem chunkText_terminates (text : List Char) (chunkSize overlap : Nat)
    (h : overlap < chunkSize) :
    (chunkText text chunkSize overlap).isSome := by
  exact chunkTextLoop_isSome text chunkSize overlap h (text.length + 1) 0
    (by omega) (by omega)

theorem chunkText_terminates_witness :
    50 < 500 ∧ (chunkText (List.replicate 5 'a') 500 50).isSome :=
  ⟨by decide, chunkText_terminates (List.replicate 5 'a') 500 50 (by decide)⟩

/-- C1: for `0 < O < C`, `chunkText` returns a list whose `i`-th chunk is the
slice of the text from `i*(C−O)` to `min (i*(C−O)+C) N`, every chunk has
length at most `C`, and for nonempty text the final chunk ends exactly at
index `N`. -/
theorem chunkText_window_spec (text : List Char) (chunkSize overlap : Nat)
    (hO : 0 < overlap) (hOC : overlap < chunkSize) :
    ∃ l, chunkText text chunkSize overlap = some l ∧
      (∀ i (hi : i < l.length),
        l.get ⟨i, hi⟩ =
          strSlice text (i * (chunkSize - overlap))
            (min (i * (chunkSize - overlap) + chunkSize) text.length)) ∧
      (∀ c ∈ l, c.length ≤ chunkSize) ∧
      (text ≠ [] → ∃ hne : l ≠ [],
        l.getLast hne =
          strSlice text ((l.length - 1) * (chunkSize - overlap)) text.length) := by
  have hsome : (chunkText text chunkSize overlap).isSome :=
    chunkTextLoop_isSome text chunkSize overlap hOC (text.length + 1) 0
      (by omega) (by omega)
  rcases Option.isSome_iff_exists.mp hsome with ⟨l, hl⟩
  have hget := chunkTextLoop_get text chunkSize overlap (text.length + 1) 0 l hl
  refine ⟨l, hl, ?_, ?_, ?_⟩
  · intro i hi
    have := hget i hi
    simpa using this
  · intro c hc
    rcases List.mem_iff_get.mp hc with ⟨⟨i, hi⟩, rfl⟩
    have := hget i hi
    rw [this]
    have := strSlice_length_le text (0 + i * (chunkSize - overlap))
      (min (0 + i * (chunkSize - overlap) + chunkSize) text.length)
    omega
  · intro hne
    have hlen : 0 < text.length := by
      cases text with
      | nil => exact absurd rfl hne
      | cons a t => simp
    have hexit := chunkTextLoop_exit text chunkSize overlap (text.length + 1) 0 l hl hlen
    have hlne : l ≠ [] := by
      intro hc
      subst hc
      simp only [List.length_nil, Nat.zero_mul, Nat.add_zero] at hexit
      omega
    refine ⟨hlne, ?_⟩
    have hL : 0 < l.length := List.length_pos.mpr hlne
    rw [List.getLast_eq_get]
    have := hget (l.length - 1) (by omega)
    rw [this]
    have hstride : 0 < chunkSize - overlap := by omega
    have hmul : (l.length - 1) * (chunkSize - overlap) + (chunkSize - overlap) =
        l.length * (chunkSize - overlap) := by
      have := Nat.succ_pred_eq_of_pos hL
      calc (l.length - 1) * (chunkSize - overlap) + (chunkSize - overlap)
          = (l.length - 1 + 1) * (chunkSize - overlap) := by ring
        _ = l.length * (chunkSize - overlap) := by rw [Nat.sub_add_cancel hL]
    have hend : text.length ≤ (l.length - 1) * (chunkSize - overlap) + chunkSize := by
      omega
    have hmin : min (0 + (l.length - 1) * (chunkSize - overlap) + chunkSize)
        text.length = text.length := Nat.min_eq_right (by omega)
    rw [hmin, Nat.zero_add]

theorem chunkText_window_spec_witness :
    0 < 1 ∧ 1 < 2 ∧
    ∃ l, chunkText ['a', 'b', 'c'] 2 1 = some l ∧
      (∀ i (hi : i < l.length),
        l.get ⟨i, hi⟩ =
          strSlice ['a', 'b', 'c'] (i * (2 - 1))
            (min (i * (2 - 1) + 2) (['a', 'b', 'c'] : List Char).length)) ∧
      (∀ c ∈ l, c.length ≤ 2) ∧
      ((['a', 'b', 'c'] : List Char) ≠ [] → ∃ hne : l ≠ [],
        l.getLast hne =
          strSlice ['a', 'b', 'c'] ((l.length - 1) * (2 - 1))
            (['a', 'b', 'c'] : List Char).length) :=
  ⟨by decide, by decide,
    chunkText_window_spec ['a', 'b', 'c'] 2 1 (by decide) (by decide)⟩

set_option maxRecDepth 100000 in
/-- C3 counterexample: the claim says any non-empty text of length strictly
less than `C` yields exactly one chunk equal to the whole input.  With the
default parameters `C = 500`, `O = 50`, a text of length `460 < 500` yields
two chunks (the second start index `450` is still below `460`); similarly the
tiny instance `C = 5`, `O = 2` on a text of length `4` yields two chunks. -/
theorem chunkText_short_two_chunks :
    (List.replicate 460 'a').length < 500 ∧
    List.replicate 460 'a' ≠ ([] : List Char) ∧
    chunkText (List.replicate 460 'a') 500 50 =
      some [List.replicate 460 'a', List.replicate 10 'a'] ∧
    chunkText (List.replicate 460 'a') 500 50 ≠ some [List.replicate 460 'a'] ∧
    (['a', 'b', 'c', 'd'] : List Char).length < 5 ∧
    chunkText ['a', 'b', 'c', 'd'] 5 2 =
      some [['a', 'b', 'c', 'd'], ['d']] := by
  decide

/-- C3 (amended): chunking the empty string yields the empty sequence, and for
`0 < O < C` chunking a non-empty string of length at most `C − O` yields
exactly one chunk equal to the whole string. -/
theorem chunkText_empty_and_small (text : List Char) (chunkSize overlap : Nat)
    (hO : 0 < overlap) (hOC : overlap < chunkSize) :
    chunkText ([] : List Char) chunkSize overlap = some [] ∧
    (text ≠ [] → text.length ≤ chunkSize - overlap →
      chunkText text chunkSize overlap = some [text]) := by
  constructor
  · rw [chunkText, chunkTextLoop]
    simp
  · intro hne hlen
    have hpos : 0 < text.length := List.length_pos.mpr hne
    rw [chunkText, chunkTextLoop]
    have h1 : 0 < text.length := hpos
    have h2 : text.length ≤ 0 + (chunkSize - overlap) := by omega
    simp only [h1, if_true, h2, if_true]
    have : strSlice text 0 (min (0 + chunkSize) text.length) = text := by
      have : min (0 + chunkSize) text.length = text.length := by omega
      rw [this]
      simp [strSlice]
    rw [this]

theorem chunkText_empty_and_small_witness :
    0 < 50 ∧ 50 < 500 ∧
    chunkText ([] : List Char) 500 50 = some [] ∧
    chunkText ['h', 'i'] 500 50 = some [['h', 'i']] :=
  ⟨by decide, by decide,
    (chunkText_empty_and_small ['h', 'i'] 500 50 (by decide) (by decide)).1,
    (chunkText_empty_and_small ['h', 'i'] 500 50 (by decide) (by decide)).2
      (by decide) (by decide)⟩

set_option maxRecDepth 400000 in
/-- C2: the claim says the `content` column of the `i`-th persisted
DocumentChunk row equals the `i`-th chunk produced by `chunkText` (which is
also the `content` metadata stored on the `i`-th vector).  On a 1000-unit
content the persisted row `1` holds `content.slice(450, 1000)` (550 units),
while `chunkText`'s chunk `1` — and the vector metadata — is
`content.slice(450, 950)` (500 units): the persisted rows diverge from the
chunks the code itself embedded. -/
theorem documentChunk_row_content_mismatch :
    ((savedChunkContents "doc" (List.replicate 1000 'a')).getD []).map List.length
      = [500, 550, 100] ∧
    ((chunkText (List.replicate 1000 'a')).getD []).map List.length
      = [500, 500, 100] ∧
    savedChunkContents "doc" (List.replicate 1000 'a')
      ≠ chunkText (List.replicate 1000 'a') ∧
    ((processDocument "doc" (List.replicate 1000 'a')).getD
        ([], [], [])).2.2.map VectorRecord.content
      = (chunkText (List.replicate 1000 'a')).getD [] := by
  decide

/-- C5: for a batch whose remote response carries `K` vectors (one per input,
order-preserving) each of at least the target dimensionality,
`generateEmbeddings` returns exactly `K` vectors, the `i`-th output is the
leading-`1536` truncation of the `i`-th response vector, and every output
vector has length exactly `VECTORIZE_DIMENSIONS = 1536`. -/
theorem generateEmbeddings_spec {α : Type} (data : List (List α)) (K : Nat)
    (hK : data.length = K)
    (hdim : ∀ emb ∈ data, VECTORIZE_DIMENSIONS ≤ emb.length) :
    (generateEmbeddings data).length = K ∧
    (∀ i (hi : i < (generateEmbeddings data).length) (hi2 : i < data.length),
      (generateEmbeddings data).get ⟨i, hi⟩ =
        (data.get ⟨i, hi2⟩).take VECTORIZE_DIMENSIONS) ∧
    (∀ v ∈ generateEmbeddings data, v.length = VECTORIZE_DIMENSIONS) := by
  refine ⟨?_, ?_, ?_⟩
  · simpa [generateEmbeddings] using hK
  · intro i hi hi2
    simp [generateEmbeddings]
  · intro v hv
    simp only [generateEmbeddings, List.mem_map] at hv
    rcases hv with ⟨emb, hemb, rfl⟩
    have := hdim emb hemb
    simp [List.length_take]
    omega

set_option maxRecDepth 400000 in
theorem generateEmbeddings_spec_witness :
    ([List.replicate 2048 (0 : Int)].length = 1 ∧
      (∀ emb ∈ [List.replicate 2048 (0 : Int)],
        VECTORIZE_DIMENSIONS ≤ emb.length)) ∧
    ((generateEmbeddings [List.replicate 2048 (0 : Int)]).length = 1 ∧
      (∀ i (hi : i < (generateEmbeddings [List.replicate 2048 (0 : Int)]).length)
        (hi2 : i < [List.replicate 2048 (0 : Int)].length),
        (generateEmbeddings [List.replicate 2048 (0 : Int)]).get ⟨i, hi⟩ =
          ([List.replicate 2048 (0 : Int)].get ⟨i, hi2⟩).take VECTORIZE_DIMENSIONS) ∧
      (∀ v ∈ generateEmbeddings [List.replicate 2048 (0 : Int)],
        v.length = VECTORIZE_DIMENSIONS)) :=
  ⟨⟨by simp, by simp [VECTORIZE_DIMENSIONS]⟩,
    generateEmbeddings_spec [List.replicate 2048 (0 : Int)] 1 (by simp)
      (by simp [VECTORIZE_DIMENSIONS])⟩

/-- C4: across the upload handler and its background task the document status
only takes the values `processing`, `ready`, `failed`; it is `processing`
right after the upload response; the history is exactly
`["processing", t]` with `t` terminal — so the status never leaves `ready` or
`failed` within this flow — and `t = "ready"` exactly when no step of the
background sequence throws, `t = "failed"` otherwise (the exception having
been swallowed, since the task still completes with a status write). -/
theorem uploadStatusLifecycle (isLocalDev : Bool) (calls : UploadCalls) :
    (documentStatusHistory isLocalDev calls).head? = some "processing" ∧
    (∀ s ∈ documentStatusHistory isLocalDev calls,
      s = "processing" ∨ s = "ready" ∨ s = "failed") ∧
    ∃ t, documentStatusHistory isLocalDev calls = ["processing", t] ∧
      (t = "ready" ∨ t = "failed") ∧
      (t = "ready" ↔
        (if isLocalDev then calls.localInsertThrows = false
         else (∃ r, calls.processResult = .ok r) ∧
           calls.chunkInsertThrows = false)) := by
  rcases calls with ⟨li, pr, ci⟩
  cases isLocalDev <;> cases li <;> cases ci <;> cases pr <;>
    simp [documentStatusHistory, backgroundStatusWrites]

/-- C6: in the delete flow, when the document exists, belongs to the caller
and has at least one non-null chunk vector id, exactly one batched
vector-delete call over all the non-null ids is attempted, the document-row
delete happens after it, and the handler answers success — identically
whether or not the vector delete throws (the error is caught and deletion
proceeds). -/
theorem handleDelete_spec (chunkVectorIds : List (Option String))
    (throws : Bool) (h : chunkVectorIds.filterMap id ≠ []) :
    handleDelete true true chunkVectorIds throws =
      ([DeleteEvent.vectorDelete (chunkVectorIds.filterMap id),
        DeleteEvent.dbDeleteDocument], 200) ∧
    handleDelete true true chunkVectorIds throws =
      handleDelete true true chunkVectorIds false := by
  have hlen : 0 < (chunkVectorIds.filterMap id).length :=
    List.length_pos.mpr h
  constructor
  · simp [handleDelete, deleteDocumentVectorsRun, hlen, h]
  · simp [handleDelete, deleteDocumentVectorsRun, hlen, h]

theorem handleDelete_spec_witness :
    ([some "v1", none, some "v2"] : List (Option String)).filterMap id ≠ [] ∧
    handleDelete true true [some "v1", none, some "v2"] true =
      ([DeleteEvent.vectorDelete
          (([some "v1", none, some "v2"] : List (Option String)).filterMap id),
        DeleteEvent.dbDeleteDocument], 200) ∧
    handleDelete true true [some "v1", none, some "v2"] true =
      handleDelete true true [some "v1", none, some "v2"] false :=
  ⟨by decide,
    (handleDelete_spec [some "v1", none, some "v2"] true (by decide)).1,
    (handleDelete_spec [some "v1", none, some "v2"] true (by decide)).2⟩

/-- C7: for an authenticated chat request with a non-empty message and no
conversation id, the trace contains exactly one conversation insert, whose
title is the first 50 units of the message, and exactly one user-role message
insert carrying the message text, and that insert occurs strictly before the
chat-model call. -/
theorem chatPost_newConversation (msg : List Char) (useRag : Bool)
    (h : msg ≠ []) :
    (chatPostTrace msg none useRag).filter ChatEvent.isInsertConversation
      = [ChatEvent.insertConversation (msg.take 50)] ∧
    (chatPostTrace msg none useRag).filter ChatEvent.isUserInsert
      = [ChatEvent.insertMessage "user" msg] ∧
    ∃ i j : Nat, i < j ∧
      (chatPostTrace msg none useRag)[i]? =
        some (ChatEvent.insertMessage "user" msg) ∧
      (chatPostTrace msg none useRag)[j]? = some ChatEvent.modelCall := by
  cases useRag <;>
    simp only [chatPostTrace, h, if_false, if_true, Bool.false_eq_true,
      List.append_assoc, List.nil_append, List.cons_append] <;>
    refine ⟨?_, ?_, ?_⟩
  · simp [ChatEvent.isInsertConversation, ChatEvent.isUserInsert]
  · simp [ChatEvent.isInsertConversation, ChatEvent.isUserInsert]
  · exact ⟨1, 2, by omega, by simp, by simp⟩
  · simp [ChatEvent.isInsertConversation, ChatEvent.isUserInsert]
  · simp [ChatEvent.isInsertConversation, ChatEvent.isUserInsert]
  · exact ⟨1, 3, by omega, by simp, by simp⟩

theorem responsesInnerFold (cs : List ResponseContentItem) (acc : List Char) :
    cs.foldl (fun acc2 c =>
        if c.type = "output_text" ∧ c.text ≠ [] then acc2 ++ c.text
        else acc2) acc
      = acc ++ (cs.filterMap (fun c =>
          if c.type = "output_text" then some c.text else none)).flatten := by
  induction cs generalizing acc with
  | nil => simp
  | cons c cs ih =>
    simp only [List.foldl_cons, List.filterMap_cons]
    by_cases h1 : c.type = "output_text"
    · by_cases h2 : c.text = []
      · simp [h1, h2, ih]
      · simp [h1, h2, ih, List.append_assoc]
    · simp [h1, ih]

theorem responsesOuterFold (items : List ResponseOutputItem) (acc : List Char) :
    items.foldl (fun acc item =>
        if item.type = "message" then
          match item.content with
          | some cs =>
            cs.foldl (fun acc2 c =>
              if c.type = "output_text" ∧ c.text ≠ [] then acc2 ++ c.text
              else acc2) acc
          | none => acc
        else acc) acc
      = acc ++ ((items.map (fun item =>
          if item.type = "message" then
            (item.content.getD []).filterMap (fun c =>
              if c.type = "output_text" then some c.text else none)
          else [])).flatten).flatten := by
  induction items generalizing acc with
  | nil => simp
  | cons item items ih =>
    simp only [List.foldl_cons, List.map_cons, List.flatten]
    by_cases h : item.type = "message"
    · cases hc : item.content with
      | none =>
        simp [h, hc, ih]
      | some cs =>
        simp only [h, if_true, hc]
        rw [responsesInnerFold, ih]
        simp [List.append_assoc]
    · simp [h, ih]

/-- C8: the fake-streaming path enqueues exactly one chunk and closes, that
chunk's text equals the string `chatCompletion` returns on the same model
response, and both equal the concatenation of the response's `output_text`
fragments — so the streaming and non-streaming paths deliver identical text. -/
theorem chatCompletionStream_refines (response : ResponsesApiOutput) :
    chatCompletionStreamChunks response = [chatCompletionText response] ∧
    (chatCompletionStreamChunks response).length = 1 ∧
    chatCompletionText response = (outputTextFragments response).flatten := by
  refine ⟨rfl, rfl, ?_⟩
  unfold chatCompletionText extractCompletionText outputTextFragments
  cases hout : response.output with
  | none => simp
  | some items =>
    simp only [Option.getD_some]
    rw [responsesOuterFold]
    simp

theorem chatPost_newConversation_witness :
    (['h', 'e', 'l', 'l', 'o'] : List Char) ≠ [] ∧
    ((chatPostTrace ['h', 'e', 'l', 'l', 'o'] none false).filter
        ChatEvent.isInsertConversation
      = [ChatEvent.insertConversation (['h', 'e', 'l', 'l', 'o'].take 50)] ∧
    (chatPostTrace ['h', 'e', 'l', 'l', 'o'] none false).filter
        ChatEvent.isUserInsert
      = [ChatEvent.insertMessage "user" ['h', 'e', 'l', 'l', 'o']] ∧
    ∃ i j : Nat, i < j ∧
      (chatPostTrace ['h', 'e', 'l', 'l', 'o'] none false)[i]? =
        some (ChatEvent.insertMessage "user" ['h', 'e', 'l', 'l', 'o']) ∧
      (chatPostTrace ['h', 'e', 'l', 'l', 'o'] none false)[j]? =
        some ChatEvent.modelCall) :=
  ⟨by decide,
    chatPost_newConversation ['h', 'e', 'l', 'l', 'o'] false (by decide)⟩

theorem head?_some_mem {α : Type} {l : List α} {a : α}
    (h : l.head? = some a) : a ∈ l := by
  cases l with
  | nil => simp at h
  | cons b t =>
    simp only [List.head?_cons, Option.some.injEq] at h
    exact h ▸ List.mem_cons_self b t

theorem firstUserProject_facts {db : ProjectsDb} {uid pid : String}
    {p : ProjectRow} (h : firstUserProject db uid pid = some p) :
    p ∈ db.projects ∧ p.id = pid ∧ p.userId = uid := by
  have hp := head?_some_mem h
  rcases List.mem_filter.mp hp with ⟨hmem, hcond⟩
  simp only [Bool.and_eq_true, beq_iff_eq] at hcond
  exact ⟨hmem, hcond.1, hcond.2⟩

theorem firstDefaultProject_facts {db : ProjectsDb} {uid : String}
    {d : ProjectRow} (h : firstDefaultProject db uid = some d) :
    d ∈ db.projects ∧ d.userId = uid ∧ d.isDefault = true := by
  have hd := head?_some_mem h
  rcases List.mem_filter.mp hd with ⟨hmem, hcond⟩
  simp only [Bool.and_eq_true, beq_iff_eq] at hcond
  exact ⟨hmem, hcond.1, hcond.2⟩

/-- Reassignment of a document row preserves its id. -/
theorem reassign_preserves_id (pid defId : String) (doc : DocumentRow) :
    (if doc.projectId = some pid then { doc with projectId := some defId }
     else doc).id = doc.id := by
  by_cases h : doc.projectId = some pid <;> simp [h]

theorem reassign_map_id (docs : List DocumentRow) (pid defId : String) :
    (docs.map (fun doc =>
        if doc.projectId = some pid then { doc with projectId := some defId }
        else doc)).map DocumentRow.id = docs.map DocumentRow.id := by
  induction docs with
  | nil => simp
  | cons doc docs ih =>
    simp only [List.map_cons, ih]
    rw [reassign_preserves_id pid defId doc]

theorem reassign_get (docs : List DocumentRow) (pid defId : String) (i : Nat)
    (hi : i < (docs.map (fun doc =>
        if doc.projectId = some pid then { doc with projectId := some defId }
        else doc)).length) (hi2 : i < docs.length) :
    ((docs.map (fun doc =>
        if doc.projectId = some pid then { doc with projectId := some defId }
        else doc)).get ⟨i, hi⟩).projectId =
      if (docs.get ⟨i, hi2⟩).projectId = some pid then some defId
      else (docs.get ⟨i, hi2⟩).projectId := by
  simp only [List.get_eq_getElem, List.getElem_map]
  by_cases hdoc : docs[i].projectId = some pid <;> simp [hdoc]

/-- C10: the project delete endpoint rejects deletion of a default project
with an error and leaves the tables unchanged; deleting a non-default project
answers success, every document that referenced it is reassigned to the
user's default project (created when absent) — which exists, is default and
differs from the deleted project — no project row with the deleted id
remains, no document row is deleted, and every document's project reference
is unchanged unless it pointed at the deleted project. -/
theorem projectsDelete_spec (db : ProjectsDb) (uid pid newId : String)
    (p : ProjectRow)
    (hnodup : (db.projects.map ProjectRow.id).Nodup)
    (hfresh : newId ∉ db.projects.map ProjectRow.id)
    (hfind : firstUserProject db uid pid = some p) :
    (p.isDefault = true → projectsDelete db uid (some pid) newId = (db, 400)) ∧
    (p.isDefault = false → ∃ db' defId,
      projectsDelete db uid (some pid) newId = (db', 200) ∧
      defId ≠ pid ∧
      (∃ q ∈ db'.projects, q.id = defId ∧ q.userId = uid ∧
        q.isDefault = true) ∧
      (∀ q ∈ db'.projects, q.id ≠ pid) ∧
      db'.documents.map DocumentRow.id = db.documents.map DocumentRow.id ∧
      (∀ i (hi : i < db'.documents.length) (hi2 : i < db.documents.length),
        (db'.documents.get ⟨i, hi⟩).projectId =
          if (db.documents.get ⟨i, hi2⟩).projectId = some pid then some defId
          else (db.documents.get ⟨i, hi2⟩).projectId)) := by
  obtain ⟨hpmem, hpid, hpuid⟩ := firstUserProject_facts hfind
  constructor
  · intro hd
    simp [projectsDelete, hfind, hd]
  · intro hd
    have hpidmem : pid ∈ db.projects.map ProjectRow.id :=
      hpid ▸ List.mem_map_of_mem ProjectRow.id hpmem
    cases hdef : firstDefaultProject db uid with
    | some d =>
      obtain ⟨hdmem, hduid, hddef⟩ := firstDefaultProject_facts hdef
      have hdne : d.id ≠ pid := by
        intro hc
        have hdp : d = p := List.inj_on_of_nodup_map hnodup hdmem hpmem
          (by rw [hc, hpid])
        rw [hdp] at hddef
        rw [hddef] at hd
        exact Bool.true_eq_false.mp hd
      refine ⟨ProjectsDb.mk (db.projects.filter (fun q => !(q.id == pid)))
        (db.documents.map (fun doc =>
          if doc.projectId = some pid then { doc with projectId := some d.id }
          else doc)), d.id, ?_, hdne, ?_, ?_, ?_, ?_⟩
      · simp [projectsDelete, hfind, hd, hdef]
      · exact ⟨d, List.mem_filter.mpr ⟨hdmem, by simp [hdne]⟩, rfl, hduid, hddef⟩
      · intro q hq
        have := (List.mem_filter.mp hq).2
        simpa using this
      · exact reassign_map_id db.documents pid d.id
      · intro i hi hi2
        exact reassign_get db.documents pid d.id i hi hi2
    | none =>
      have hnewne : newId ≠ pid := fun hc => hfresh (hc ▸ hpidmem)
      refine ⟨ProjectsDb.mk ((db.projects ++
          [ProjectRow.mk newId uid "Uncategorized"
            (some "Default project for documents without a project")
            true]).filter (fun q => !(q.id == pid)))
        (db.documents.map (fun doc =>
          if doc.projectId = some pid then { doc with projectId := some newId }
          else doc)), newId, ?_, hnewne, ?_, ?_, ?_, ?_⟩
      · simp [projectsDelete, hfind, hd, hdef]
      · refine ⟨ProjectRow.mk newId uid "Uncategorized"
          (some "Default project for documents without a project") true,
          ?_, rfl, rfl, rfl⟩
        exact List.mem_filter.mpr
          ⟨List.mem_append_right _ (List.mem_singleton.mpr rfl),
            by simp [hnewne]⟩
      · intro q hq
        have := (List.mem_filter.mp hq).2
        simpa using this
      · exact reassign_map_id db.documents pid newId
      · intro i hi hi2
        exact reassign_get db.documents pid newId i hi hi2

theorem projectsDelete_spec_witness :
    (((ProjectsDb.mk [ProjectRow.mk "p1" "u" "Work" none false]
        [DocumentRow.mk "d1" "u" (some "p1"),
         DocumentRow.mk "d2" "u" none]).projects.map ProjectRow.id).Nodup ∧
      "p2" ∉ (ProjectsDb.mk [ProjectRow.mk "p1" "u" "Work" none false]
        [DocumentRow.mk "d1" "u" (some "p1"),
         DocumentRow.mk "d2" "u" none]).projects.map ProjectRow.id ∧
      firstUserProject
        (ProjectsDb.mk [ProjectRow.mk "p1" "u" "Work" none false]
          [DocumentRow.mk "d1" "u" (some "p1"),
           DocumentRow.mk "d2" "u" none]) "u" "p1"
        = some (ProjectRow.mk "p1" "u" "Work" none false)) ∧
    ∃ db' defId,
      projectsDelete
        (ProjectsDb.mk [ProjectRow.mk "p1" "u" "Work" none false]
          [DocumentRow.mk "d1" "u" (some "p1"),
           DocumentRow.mk "d2" "u" none]) "u" (some "p1") "p2"
        = (db', 200) ∧
      defId ≠ "p1" ∧
      (∃ q ∈ db'.projects, q.id = defId ∧ q.userId = "u" ∧
        q.isDefault = true) ∧
      (∀ q ∈ db'.projects, q.id ≠ "p1") ∧
      db'.documents.map DocumentRow.id =
        [DocumentRow.mk "d1" "u" (some "p1"),
         DocumentRow.mk "d2" "u" none].map DocumentRow.id ∧
      (∀ i (hi : i < db'.documents.length)
        (hi2 : i < ([DocumentRow.mk "d1" "u" (some "p1"),
          DocumentRow.mk "d2" "u" none] : List DocumentRow).length),
        (db'.documents.get ⟨i, hi⟩).projectId =
          if (([DocumentRow.mk "d1" "u" (some "p1"),
              DocumentRow.mk "d2" "u" none] : List DocumentRow).get
              ⟨i, hi2⟩).projectId = some "p1" then some defId
          else (([DocumentRow.mk "d1" "u" (some "p1"),
              DocumentRow.mk "d2" "u" none] : List DocumentRow).get
              ⟨i, hi2⟩).projectId) :=
  ⟨⟨by decide, by decide, by decide⟩,
    (projectsDelete_spec
      (ProjectsDb.mk [ProjectRow.mk "p1" "u" "Work" none false]
        [DocumentRow.mk "d1" "u" (some "p1"),
         DocumentRow.mk "d2" "u" none]) "u" "p1" "p2"
      (ProjectRow.mk "p1" "u" "Work" none false)
      (by decide) (by decide) (by decide)).2 rfl⟩

end Vibestar
